import Mathlib

/-!
Shallow embedding of `src/main.py` (fastapi-trade-management): the in-memory
trade store (`TradeDB`), its query primitives, and the `/trades/` query
pipeline (search, filter, exclusion, trader restriction, multi-key sort,
pagination) together with the `/trades/{trade_id}` lookup endpoint.

Modelling conventions:
- Python `float` prices are modelled as `ℚ` (every finite float is rational,
  and only order and equality of prices are used by the program).
- `datetime` values are modelled as `Int` timestamps (only their total order
  is used).
- Python exceptions are modelled by `Except PyError`; `PyError` distinguishes
  the `AttributeError` and `TypeError` a handler body can raise from the
  `ValidationError` FastAPI raises while parsing a request.
- Python `str.lower` is `strLower` (character-wise `Char.toLower`; it agrees
  with CPython on the ASCII data the service holds); `a in b` on strings is
  the contiguous-substring test `strIn`; string comparison is lexicographic
  by code point (`charsLe`), as in CPython.
- CPython `sorted(xs, key=k, reverse=r)` is stable; a stable sort with
  respect to a total preorder has a unique result, so it is modelled by the
  stable insertion sort `pySort`.  `sorted` computes all keys first (so a
  missing attribute faults even before any comparison) and then compares
  keys; with at least two elements whose keys are not all in one mutually
  comparable class (both strings, or both datetimes) some adjacent
  comparison is attempted and a `TypeError` is raised, which `allComparable`
  captures.
-/

/-- Exceptions distinguishable at the transport boundary of the service. -/
inductive PyError where
  | attributeError
  | typeError
  | validationError
  deriving DecidableEq, Repr

instance [DecidableEq ε] [DecidableEq α] : DecidableEq (Except ε α) := fun x y =>
  match x, y with
  | .ok a, .ok b =>
    match decEq a b with
    | .isTrue h => .isTrue (by rw [h])
    | .isFalse h => .isFalse fun hc => h (by cases hc; rfl)
  | .ok _, .error _ => .isFalse fun hc => Except.noConfusion hc
  | .error _, .ok _ => .isFalse fun hc => Except.noConfusion hc
  | .error e, .error f =>
    match decEq e f with
    | .isTrue h => .isTrue (by rw [h])
    | .isFalse h => .isFalse fun hc => h (by cases hc; rfl)

/-- Embedded `TradeDetails` pydantic model: plain type annotations only
(`buySellIndicator: str`, `price: float`, `quantity: int`); pydantic checks
nothing beyond the types, which the Lean types already guarantee. -/
structure TradeDetails where
  buySellIndicator : String
  price : ℚ
  quantity : Int
  deriving DecidableEq, Repr

/-- Embedded `Trade` pydantic model, field for field. -/
structure Trade where
  asset_class : Option String
  counterparty : Option String
  instrument_id : String
  instrument_name : String
  trade_date_time : Int
  trade_details : TradeDetails
  trade_id : Option String
  trader : String
  deriving DecidableEq, Repr

/-- Prefix test on character lists (workhorse for the substring test). -/
def prefEq : List Char → List Char → Bool
  | [], _ => true
  | _ :: _, [] => false
  | a :: as, b :: bs => a == b && prefEq as bs

/-- Contiguous-sublist test on character lists. -/
def subAt (n : List Char) : List Char → Bool
  | [] => n.isEmpty
  | c :: cs => prefEq n (c :: cs) || subAt n cs

/-- Python `needle in haystack` on strings: contiguous substring test. -/
def strIn (needle haystack : String) : Bool :=
  subAt needle.data haystack.data

/-- Python `s.lower()`, character-wise (ASCII-faithful). -/
def strLower (s : String) : String :=
  String.mk (s.data.map Char.toLower)

namespace TradeDB

/-- `TradeDB.add_trade`: `self.trades.append(trade)` — unconditional append,
no validation and no duplicate-id check. -/
def add_trade (trades : List Trade) (trade : Trade) : List Trade :=
  trades ++ [trade]

/-- `TradeDB.get_trade_by_id`: first linear match on `trade.trade_id ==
trade_id`, `None` when absent.  The id argument is `Option String` because
`Trade.trade_id` is `Optional[str]` in the model. -/
def get_trade_by_id (trades : List Trade) (trade_id : Option String) : Option Trade :=
  trades.find? (fun t => t.trade_id == trade_id)

/-- One trade's test in `TradeDB.search_trades`: the `or`-chain over the four
searchable fields, evaluated left to right with Python short-circuiting.
`trade.counterparty.lower()` faults with `AttributeError` when
`counterparty` is `None` and the two instrument fields did not match. -/
def searchMatch (ql : String) (t : Trade) : Except PyError Bool :=
  if strIn ql (strLower t.instrument_id) then .ok true
  else if strIn ql (strLower t.instrument_name) then .ok true
  else
    match t.counterparty with
    | none => .error .attributeError
    | some c =>
      if strIn ql (strLower c) then .ok true
      else .ok (strIn ql (strLower t.trader))

/-- The scan loop of `TradeDB.search_trades`, in store order; a fault at any
trade aborts the whole call. -/
def searchGo (ql : String) : List Trade → Except PyError (List Trade)
  | [] => .ok []
  | t :: ts =>
    match searchMatch ql t with
    | .error e => .error e
    | .ok m =>
      match searchGo ql ts with
      | .error e => .error e
      | .ok rest => .ok (if m then t :: rest else rest)

/-- `TradeDB.search_trades`: lowercase the query once, then scan the store. -/
def search_trades (trades : List Trade) (query : String) : Except PyError (List Trade) :=
  searchGo (strLower query) trades

/-- The five pure conjuncts of the `filter_trades` condition (date bounds,
price bounds, trade type); absent parameters impose no restriction. -/
def filterRest (start end_ : Option Int) (min_price max_price : Option ℚ)
    (trade_type : Option String) (t : Trade) : Bool :=
  (match start with | none => true | some s => decide (s ≤ t.trade_date_time)) &&
  (match end_ with | none => true | some e => decide (t.trade_date_time ≤ e)) &&
  (match min_price with | none => true | some p => decide (p ≤ t.trade_details.price)) &&
  (match max_price with | none => true | some q => decide (t.trade_details.price ≤ q)) &&
  (match trade_type with | none => true | some ty => t.trade_details.buySellIndicator == ty)

/-- One trade's test in `TradeDB.filter_trades`.  The endpoint passes
`asset_classes` as `Optional[str]`, so `trade.asset_class in asset_classes`
is Python's substring test, and is a `TypeError` when `trade.asset_class` is
`None` (`'in <string>' requires string as left operand`); the `and`-chain
short-circuits, so a failed first conjunct suppresses the rest. -/
def filterPred (asset_classes : Option String) (start end_ : Option Int)
    (min_price max_price : Option ℚ) (trade_type : Option String) (t : Trade) :
    Except PyError Bool :=
  match asset_classes with
  | none => .ok (filterRest start end_ min_price max_price trade_type t)
  | some acs =>
    match t.asset_class with
    | none => .error .typeError
    | some ac =>
      if strIn ac acs then .ok (filterRest start end_ min_price max_price trade_type t)
      else .ok false

/-- `TradeDB.filter_trades`: scan the whole store in insertion order and keep
the trades satisfying every supplied constraint. -/
def filter_trades (trades : List Trade) (asset_classes : Option String)
    (start end_ : Option Int) (min_price max_price : Option ℚ)
    (trade_type : Option String) : Except PyError (List Trade) :=
  match trades with
  | [] => .ok []
  | t :: ts =>
    match filterPred asset_classes start end_ min_price max_price trade_type t with
    | .error e => .error e
    | .ok b =>
      match filter_trades ts asset_classes start end_ min_price max_price trade_type with
      | .error e => .error e
      | .ok rest => .ok (if b then t :: rest else rest)

end TradeDB

/-- Values a sort key can produce via `getattr` on a `Trade`: a string, a
datetime (as `Int`), `None` (from an absent optional field), or an embedded
`TradeDetails` object. -/
inductive SortVal where
  | vstr (s : String)
  | vint (n : Int)
  | vnone
  | vdetails (d : TradeDetails)
  deriving DecidableEq, Repr

/-- Lift an `Optional[str]` field to a `SortVal`. -/
def optSV : Option String → SortVal
  | none => .vnone
  | some s => .vstr s

/-- Python `getattr(trade, name)`: `some` value for the eight declared
`Trade` fields, `none` (an `AttributeError` when forced) for a name that
resolves to no attribute at all (such as `"price"` or
`"nonexistent_field"`).  A real pydantic instance additionally resolves
`BaseModel` class attributes (`dict`, `json`, `copy`, `schema`,
`__fields__`, ...) to methods and class objects; those names are outside
this model's domain — the theorems below that depend on the value of
`getField` at an undeclared name fix that name to one carrying no
attribute, and the only statement quantifying over all requests
(`list_trades` never yields a `ValidationError`) does not turn on the
difference, since sorting such class attributes succeeds or raises
`TypeError`, never a `ValidationError`. -/
def getField (t : Trade) (name : String) : Option SortVal :=
  if name = "asset_class" then some (optSV t.asset_class)
  else if name = "counterparty" then some (optSV t.counterparty)
  else if name = "instrument_id" then some (.vstr t.instrument_id)
  else if name = "instrument_name" then some (.vstr t.instrument_name)
  else if name = "trade_date_time" then some (.vint t.trade_date_time)
  else if name = "trade_details" then some (.vdetails t.trade_details)
  else if name = "trade_id" then some (optSV t.trade_id)
  else if name = "trader" then some (.vstr t.trader)
  else none

/-- The declared `Trade` field names, i.e. exactly the names `getField`
resolves. -/
def knownTradeField (name : String) : Bool :=
  name == "asset_class" || name == "counterparty" || name == "instrument_id" ||
  name == "instrument_name" || name == "trade_date_time" || name == "trade_details" ||
  name == "trader" || name == "trade_id"

/-- Lexicographic-by-code-point `<=` on character lists, CPython's string
comparison. -/
def charsLe : List Char → List Char → Bool
  | [], _ => true
  | _ :: _, [] => false
  | a :: as, b :: bs =>
    if a.toNat < b.toNat then true
    else if b.toNat < a.toNat then false
    else charsLe as bs

/-- Python `<=` on two sort-key values of the same comparable class; `false`
elsewhere (those pairs are guarded by `allComparable`, never compared). -/
def svLeB : SortVal → SortVal → Bool
  | .vstr s, .vstr t => charsLe s.data t.data
  | .vint m, .vint n => decide (m ≤ n)
  | _, _ => false

/-- Whether Python can order the two values: both strings or both datetimes.
`None` and `TradeDetails` support no order comparison at all. -/
def comparableSV : SortVal → SortVal → Bool
  | .vstr _, .vstr _ => true
  | .vint _, .vint _ => true
  | _, _ => false

/-- Whether a CPython sort of these keys completes without `TypeError`: with
at most one element no comparison happens; otherwise every key must be
order-comparable with every other (equivalently, with the first). -/
def allComparable : List SortVal → Bool
  | [] => true
  | v :: vs => vs.all (comparableSV v)

/-- `field.startswith("-")`. -/
def startsDash (s : String) : Bool :=
  match s.data with
  | [] => false
  | c :: _ => c == '-'

/-- `field.lstrip("-")`: remove every leading `-`. -/
def stripDashes (s : String) : String :=
  String.mk (s.data.dropWhile (fun c => c == '-'))

/-- The key of a trade for a (stripped) field name; only evaluated after
`getKeys` certified the field exists. -/
def keyD (sf : String) (t : Trade) : SortVal :=
  (getField t sf).getD .vnone

/-- The comparison `sorted(..., key=..., reverse=...)` effectively sorts by:
key order for an undecorated field, flipped key order for a `-`-prefixed
field (CPython's `reverse=True` is the stable sort by the flipped preorder). -/
def keyCmpB (field : String) (a b : Trade) : Bool :=
  if startsDash field then svLeB (keyD (stripDashes field) b) (keyD (stripDashes field) a)
  else svLeB (keyD (stripDashes field) a) (keyD (stripDashes field) b)

/-- The decorate phase of `sorted`: compute `getattr(x, sort_field)` for every
element, left to right, faulting with `AttributeError` at a missing field
(hence an unknown field faults exactly when the list is non-empty). -/
def getKeys (sf : String) : List Trade → Except PyError (List SortVal)
  | [] => .ok []
  | t :: ts =>
    match getField t sf with
    | none => .error .attributeError
    | some v =>
      match getKeys sf ts with
      | .error e => .error e
      | .ok vs => .ok (v :: vs)

/-- Stable insertion of `x` into `l`: `x` goes before the first `y` with
`le x y`, so among tied elements the earlier (already-present) ones that
satisfy `le y x` too keep their places and `x` lands before later ties. -/
def pyInsert (le : α → α → Bool) (x : α) : List α → List α
  | [] => [x]
  | y :: ys => if le x y then x :: y :: ys else y :: pyInsert le x ys

/-- Stable sort (insertion sort).  CPython's `sorted` is stable, and a stable
sort with respect to a total preorder has a unique result, so this models
`sorted` exactly on the comparable-key lists it is applied to. -/
def pySort (le : α → α → Bool) : List α → List α
  | [] => []
  | x :: xs => pyInsert le x (pySort le xs)

/-- One iteration of the sort loop: `sorted(sorted_trades,
key=lambda x: getattr(x, field.lstrip("-")), reverse=field.startswith("-"))`. -/
def sortKeyStep (field : String) (l : List Trade) : Except PyError (List Trade) :=
  match getKeys (stripDashes field) l with
  | .error e => .error e
  | .ok keys =>
    if allComparable keys then .ok (pySort (keyCmpB field) l)
    else .error .typeError

/-- The `for field in sort_by` loop: each key's sort output feeds the next
key's sort. -/
def sortStage : List String → List Trade → Except PyError (List Trade)
  | [], l => .ok l
  | f :: fs, l =>
    match sortKeyStep f l with
    | .error e => .error e
    | .ok l2 => sortStage fs l2

/-- Python list slice `l[a:b]` (step 1): negative indices count from the end,
then both bounds clamp to `[0, len(l)]`. -/
def pySlice (l : List α) (a b : Int) : List α :=
  let n : Int := l.length
  let a' : Int := if a < 0 then max (a + n) 0 else min a n
  let b' : Int := if b < 0 then max (b + n) 0 else min b n
  (l.take b'.toNat).drop a'.toNat

/-- Python truthiness of an `Optional[str]`: `None` and `""` are falsy. -/
def truthy : Option String → Bool
  | none => false
  | some s => !s.isEmpty

/-- The query parameters of `GET /trades/`, with the same names and defaults
as the endpoint signature (`end` is `end_`, a Lean keyword). -/
structure ListTradesRequest where
  asset_classes : Option String := none
  start : Option Int := none
  end_ : Option Int := none
  min_price : Option ℚ := none
  max_price : Option ℚ := none
  trade_type : Option String := none
  trader : Option String := none
  page : Int := 1
  page_size : Int := 10
  sort_by : List String := ["trade_date_time"]
  search : Option String := none
  exclude_traders : List String := []
  deriving DecidableEq, Repr

/-- Base-set selection of `list_trades` (lines 249-257): run the search when
a search text is truthy — only its exception can survive — then overwrite
the result unconditionally with `filter_trades` over the whole store. -/
def baseStage (req : ListTradesRequest) (db : List Trade) : Except PyError (List Trade) :=
  match (if truthy req.search then TradeDB.search_trades db (req.search.getD "") else .ok db) with
  | .error e => .error e
  | .ok _ =>
    TradeDB.filter_trades db req.asset_classes req.start req.end_ req.min_price
      req.max_price req.trade_type

/-- Exclusion and single-trader restriction of `list_trades` (lines 259-264). -/
def traderStage (req : ListTradesRequest) (l : List Trade) : List Trade :=
  let l1 := l.filter (fun t => !req.exclude_traders.contains t.trader)
  if truthy req.trader then l1.filter (fun t => t.trader == req.trader.getD "") else l1

/-- The whole `GET /trades/` handler: base set, exclusion and trader
restriction, sequential multi-key sort, then the page slice
`[(page-1)*page_size : (page-1)*page_size + page_size]`. -/
def list_trades (req : ListTradesRequest) (db : List Trade) : Except PyError (List Trade) :=
  match baseStage req db with
  | .error e => .error e
  | .ok filtered =>
    match sortStage req.sort_by (traderStage req filtered) with
    | .error e => .error e
    | .ok sorted_trades =>
      .ok (pySlice sorted_trades ((req.page - 1) * req.page_size)
        ((req.page - 1) * req.page_size + req.page_size))

/-- The `GET /trades/{trade_id}` handler: 404 when the store lookup returns
`None` (a pydantic model is always truthy, so any found trade is returned
unchanged). -/
def get_trade_by_id_route (db : List Trade) (trade_id : String) : Except Nat Trade :=
  match TradeDB.get_trade_by_id db (some trade_id) with
  | some t => .ok t
  | none => .error 404

/-- Sample trade (all optional fields present). -/
def trA : Trade :=
  { asset_class := some "Equities", counterparty := some "CP1",
    instrument_id := "TSLA", instrument_name := "Tesla",
    trade_date_time := 1,
    trade_details := { buySellIndicator := "BUY", price := 100, quantity := 5 },
    trade_id := some "id1", trader := "Alice" }

/-- Second sample trade, distinct in every field. -/
def trB : Trade :=
  { asset_class := some "Bonds", counterparty := some "CP2",
    instrument_id := "AMZN", instrument_name := "Amazon",
    trade_date_time := 2,
    trade_details := { buySellIndicator := "SELL", price := 50, quantity := 2 },
    trade_id := some "id2", trader := "Bob" }

/-- Sample trade with an absent (`None`) counterparty. -/
def trN : Trade :=
  { asset_class := none, counterparty := none,
    instrument_id := "ABC", instrument_name := "AbcCorp",
    trade_date_time := 3,
    trade_details := { buySellIndicator := "BUY", price := 10, quantity := 1 },
    trade_id := some "id3", trader := "Cara" }

/-- A well-typed trade violating every documented `TradeDetails` invariant. -/
def badTrade : Trade :=
  { asset_class := none, counterparty := some "CPX",
    instrument_id := "BAD", instrument_name := "Bad",
    trade_date_time := 4,
    trade_details := { buySellIndicator := "HOLD", price := -1, quantity := 0 },
    trade_id := some "id4", trader := "Mallory" }

/-- Taking up to the clamp `min m (length l)` is the same as taking `m`. -/
theorem take_min_length {α : Type} (l : List α) (m : Nat) :
    l.take (min m l.length) = l.take m := by
  rcases Nat.le_total m l.length with h | h
  · rw [Nat.min_eq_left h]
  · rw [Nat.min_eq_right h, List.take_length, List.take_of_length_le h]

/-- Dropping a clamped index from a list no longer than the clamp is the same
as dropping the raw index. -/
theorem drop_min_of_le {α : Type} (L : List α) (m k : Nat) (h : L.length ≤ k) :
    L.drop (min m k) = L.drop m := by
  rcases Nat.le_total m k with h' | h'
  · rw [Nat.min_eq_left h']
  · rw [Nat.min_eq_right h', List.drop_eq_nil_of_le h,
      List.drop_eq_nil_of_le (Nat.le_trans h h')]

/-- C3 (amended): for `page >= 1` and `page_size >= 1` the page slice
`[(page-1)*page_size : (page-1)*page_size + page_size]` is exactly
`drop ((page-1)*page_size)` then `take page_size`, and a page whose start
index is at or past the end of the sequence yields `[]` without error.
(The spec's second example is wrong: page 4 of size 3 over 10 elements
starts at index 9, which is in range, so it returns the last element.) -/
theorem c3_pagination_slice {α : Type} (l : List α) (page size : Int)
    (hp : 1 ≤ page) (hs : 1 ≤ size) :
    pySlice l ((page - 1) * size) ((page - 1) * size + size) =
      (l.drop ((page - 1) * size).toNat).take size.toNat ∧
    ((l.length : Int) ≤ (page - 1) * size →
      pySlice l ((page - 1) * size) ((page - 1) * size + size) = []) := by
  have ha : 0 ≤ (page - 1) * size := mul_nonneg (by omega) (by omega)
  have key : pySlice l ((page - 1) * size) ((page - 1) * size + size) =
      (l.drop ((page - 1) * size).toNat).take size.toNat := by
    simp only [pySlice]
    rw [if_neg (by omega), if_neg (by omega)]
    have h1 : (min ((page - 1) * size + size) (l.length : Int)).toNat =
        min ((page - 1) * size + size).toNat l.length := by omega
    have h2 : (min ((page - 1) * size) (l.length : Int)).toNat =
        min ((page - 1) * size).toNat l.length := by omega
    rw [h1, h2, take_min_length,
      drop_min_of_le _ _ _ (by simp [List.length_take]),
      List.drop_take]
    congr 1
    omega
  refine ⟨key, fun hlen => ?_⟩
  rw [key, List.drop_eq_nil_of_le (by omega), List.take_nil]

/-- C3 counterexample: over a 10-element sorted sequence with
`page_size = 3`, `page = 4` returns the element at index 9, not the empty
sequence the claim promises. -/
theorem c3_pagination_page4_counterexample :
    pySlice ([0, 1, 2, 3, 4, 5, 6, 7, 8, 9] : List Int) ((4 - 1) * 3) ((4 - 1) * 3 + 3) = [9] ∧
    pySlice ([0, 1, 2, 3, 4, 5, 6, 7, 8, 9] : List Int) ((4 - 1) * 3) ((4 - 1) * 3 + 3) ≠ [] := by
  decide

/-- C3 witness: the slice formula at `page = 2`, `page_size = 3` over the
10-element sequence yields the elements at 0-indexed positions 3, 4, 5. -/
theorem c3_pagination_witness :
    pySlice ([0, 1, 2, 3, 4, 5, 6, 7, 8, 9] : List Int) ((2 - 1) * 3) ((2 - 1) * 3 + 3) =
      [3, 4, 5] := by
  have h := (c3_pagination_slice ([0, 1, 2, 3, 4, 5, 6, 7, 8, 9] : List Int) 2 3
    (by decide) (by decide)).1
  rw [h]
  decide

/-- C7 counterexample: a `TradeDetails` with `quantity = 0`, `price = -1`
and indicator `"HOLD"` constructs without rejection and `add_trade` inserts
it, so a trade violating every documented invariant reaches the store. -/
theorem c7_invalid_trade_inserted_counterexample :
    TradeDB.add_trade [] badTrade = [badTrade] ∧
    badTrade ∈ TradeDB.add_trade [] badTrade ∧
    badTrade.trade_details.quantity ≤ 0 ∧
    badTrade.trade_details.price < 0 ∧
    badTrade.trade_details.buySellIndicator ≠ "BUY" ∧
    badTrade.trade_details.buySellIndicator ≠ "SELL" := by
  decide

/-- C7 (amended): construction checks only the field types — pydantic has no
range or enum validators here — and `add_trade` appends unconditionally, so
every well-typed trade, valid or not, reaches the store. -/
theorem c7_add_trade_unconditional (db : List Trade) (t : Trade) :
    TradeDB.add_trade db t = db ++ [t] ∧ t ∈ TradeDB.add_trade db t := by
  refine ⟨rfl, ?_⟩
  simp [TradeDB.add_trade]

/-- The only exception `searchMatch` can raise is the `AttributeError` from
`None.lower()`. -/
theorem searchMatch_error_eq (ql : String) (t : Trade) (e : PyError)
    (h : TradeDB.searchMatch ql t = .error e) : e = .attributeError := by
  unfold TradeDB.searchMatch at h
  split at h
  · exact Except.noConfusion h
  · split at h
    · exact Except.noConfusion h
    · split at h
      · injection h with h'
        exact h'.symm
      · split at h
        · exact Except.noConfusion h
        · exact Except.noConfusion h

/-- The only exception the search scan can raise is an `AttributeError`. -/
theorem searchGo_error_eq (ql : String) (l : List Trade) (e : PyError)
    (h : TradeDB.searchGo ql l = .error e) : e = .attributeError := by
  induction l with
  | nil => exact Except.noConfusion h
  | cons t ts ih =>
    unfold TradeDB.searchGo at h
    cases hm : TradeDB.searchMatch ql t with
    | error e' =>
      rw [hm] at h
      injection h with h'
      rw [h'] at hm
      exact searchMatch_error_eq ql t e hm
    | ok m =>
      rw [hm] at h
      cases hg : TradeDB.searchGo ql ts with
      | error e' =>
        rw [hg] at h
        injection h with h'
        rw [h'] at hg
        exact ih hg
      | ok rest =>
        rw [hg] at h
        exact Except.noConfusion h

/-- The only exception `filterPred` can raise is the `TypeError` from
`None in <string>`. -/
theorem filterPred_error_eq (ac : Option String) (s e_ : Option Int)
    (mp Mp : Option ℚ) (ty : Option String) (t : Trade) (e : PyError)
    (h : TradeDB.filterPred ac s e_ mp Mp ty t = .error e) : e = .typeError := by
  unfold TradeDB.filterPred at h
  split at h
  · exact Except.noConfusion h
  · split at h
    · injection h with h'
      exact h'.symm
    · split at h
      · exact Except.noConfusion h
      · exact Except.noConfusion h

/-- The only exception `filter_trades` can raise is a `TypeError`. -/
theorem filter_trades_error_eq (l : List Trade) (ac : Option String)
    (s e_ : Option Int) (mp Mp : Option ℚ) (ty : Option String) (e : PyError)
    (h : TradeDB.filter_trades l ac s e_ mp Mp ty = .error e) : e = .typeError := by
  induction l with
  | nil => exact Except.noConfusion h
  | cons t ts ih =>
    unfold TradeDB.filter_trades at h
    cases hp : TradeDB.filterPred ac s e_ mp Mp ty t with
    | error e' =>
      rw [hp] at h
      injection h with h'
      rw [h'] at hp
      exact filterPred_error_eq ac s e_ mp Mp ty t e hp
    | ok b =>
      rw [hp] at h
      cases hf : TradeDB.filter_trades ts ac s e_ mp Mp ty with
      | error e' =>
        rw [hf] at h
        injection h with h'
        rw [h'] at hf
        exact ih hf
      | ok rest =>
        rw [hf] at h
        exact Except.noConfusion h

/-- The only exception the decorate phase of a sort can raise is an
`AttributeError`. -/
theorem getKeys_error_eq (sf : String) (l : List Trade) (e : PyError)
    (h : getKeys sf l = .error e) : e = .attributeError := by
  induction l with
  | nil => exact Except.noConfusion h
  | cons t ts ih =>
    unfold getKeys at h
    split at h
    · injection h with h'
      exact h'.symm
    · split at h
      · injection h with h'
        subst h'
        exact ih (by assumption)
      · exact Except.noConfusion h

/-- A sort step raises only `AttributeError` or `TypeError`. -/
theorem sortKeyStep_error_ne_validation (f : String) (l : List Trade) (e : PyError)
    (h : sortKeyStep f l = .error e) : e ≠ .validationError := by
  unfold sortKeyStep at h
  split at h
  next e' heq =>
    injection h with h'
    rw [h'] at heq
    intro hc
    subst hc
    exact PyError.noConfusion (getKeys_error_eq _ _ _ heq)
  next keys heq =>
    split at h
    · exact Except.noConfusion h
    · injection h with h'
      subst h'
      intro hc
      exact PyError.noConfusion hc

/-- The sort loop raises only `AttributeError` or `TypeError`. -/
theorem sortStage_error_ne_validation (ks : List String) (l : List Trade) (e : PyError)
    (h : sortStage ks l = .error e) : e ≠ .validationError := by
  induction ks generalizing l with
  | nil => exact Except.noConfusion h
  | cons f fs ih =>
    unfold sortStage at h
    cases hs : sortKeyStep f l with
    | error e' =>
      rw [hs] at h
      injection h with h'
      exact h' ▸ sortKeyStep_error_ne_validation f l e' hs
    | ok l2 =>
      rw [hs] at h
      exact ih l2 h

/-- The base-set stage raises only the `AttributeError` of search or the
`TypeError` of filter, never a `ValidationError`. -/
theorem baseStage_error_ne_validation (req : ListTradesRequest) (db : List Trade)
    (e : PyError) (h : baseStage req db = .error e) : e ≠ .validationError := by
  unfold baseStage at h
  cases hx : (if truthy req.search then TradeDB.search_trades db (req.search.getD "") else .ok db) with
  | error e' =>
    rw [hx] at h
    injection h with h'
    rw [h'] at hx
    by_cases ht : truthy req.search = true
    · rw [if_pos ht] at hx
      intro hc
      subst hc
      exact PyError.noConfusion (searchGo_error_eq _ _ _ hx)
    · rw [if_neg ht] at hx
      exact Except.noConfusion hx
  | ok l' =>
    rw [hx] at h
    intro hc
    subst hc
    exact PyError.noConfusion (filter_trades_error_eq _ _ _ _ _ _ _ _ h)

/-- The whole `list_trades` handler body never raises a `ValidationError`:
its only faults are the `AttributeError` and `TypeError` of its stages. -/
theorem list_trades_ne_validationError (req : ListTradesRequest) (db : List Trade) :
    list_trades req db ≠ .error .validationError := by
  intro hc
  unfold list_trades at hc
  split at hc
  next e heq =>
    injection hc with h'
    rw [h'] at heq
    exact baseStage_error_ne_validation req db _ heq rfl
  next filtered heq =>
    split at hc
    next e heq2 =>
      injection hc with h'
      rw [h'] at heq2
      exact sortStage_error_ne_validation _ _ _ heq2 rfl
    next sorted heq2 =>
      exact Except.noConfusion hc

/-- C4 (amended): requests with `page < 1` or `page_size < 1` are not
rejected — `page` and `page_size` carry no constraints, so no
`ValidationError` is ever produced — and on any successful run the page
window is evaluated as the Python slice `pySlice` (negative indices count
from the end of the sorted sequence). -/
theorem c4_no_page_validation (req : ListTradesRequest) (db : List Trade)
    (h : req.page < 1 ∨ req.page_size < 1) :
    list_trades req db ≠ .error .validationError ∧
    (∀ l r, baseStage req db = .ok l →
      sortStage req.sort_by (traderStage req l) = .ok r →
      list_trades req db = .ok (pySlice r ((req.page - 1) * req.page_size)
        ((req.page - 1) * req.page_size + req.page_size))) := by
  refine ⟨list_trades_ne_validationError req db, ?_⟩
  intro l r hb hs
  unfold list_trades
  rw [hb]
  dsimp only
  rw [hs]

/-- C4 counterexample: the request `page = 0` (with `page_size = 10`) over a
one-trade store is not rejected with a `ValidationError`; the slice
`[-10:0]` is evaluated and the request succeeds with an empty page. -/
theorem c4_page_zero_counterexample :
    list_trades { page := 0 } [trA] = .ok ([] : List Trade) ∧
    list_trades { page := 0 } [trA] ≠ .error .validationError := by
  have h1 : list_trades { page := 0 } [trA] = .ok ([] : List Trade) := by decide
  refine ⟨h1, ?_⟩
  rw [h1]
  intro hc
  exact Except.noConfusion hc

/-- C4 witness: the amended theorem applied at `page_size = -1` over a
two-trade store; the request succeeds, returning all but the last sorted
trade. -/
theorem c4_no_page_validation_witness :
    list_trades { page_size := -1 } [trA, trB] ≠ .error .validationError ∧
    list_trades { page_size := -1 } [trA, trB] = .ok [trA] := by
  refine ⟨(c4_no_page_validation { page_size := -1 } [trA, trB] (Or.inr (by decide))).1, ?_⟩
  decide

/-- `filter_trades` with no parameters supplied keeps every trade, in
insertion order. -/
theorem filter_trades_all_none (db : List Trade) :
    TradeDB.filter_trades db none none none none none none = .ok db := by
  induction db with
  | nil => rfl
  | cons t ts ih =>
    unfold TradeDB.filter_trades
    rw [ih]
    rfl

/-- C1: whenever a search text is supplied (and the search itself returns),
the base set of the pipeline is `filter_trades` over the whole store with
the request's filter parameters — the search result is discarded — and when
no filter parameter is supplied the base set is the full store in insertion
order. -/
theorem c1_filter_overrides_search (req : ListTradesRequest) (db s : List Trade)
    (h1 : truthy req.search = true)
    (h2 : TradeDB.search_trades db (req.search.getD "") = .ok s) :
    baseStage req db = TradeDB.filter_trades db req.asset_classes req.start req.end_
      req.min_price req.max_price req.trade_type ∧
    (req.asset_classes = none → req.start = none → req.end_ = none →
      req.min_price = none → req.max_price = none → req.trade_type = none →
      baseStage req db = .ok db) := by
  have hb : baseStage req db = TradeDB.filter_trades db req.asset_classes req.start
      req.end_ req.min_price req.max_price req.trade_type := by
    unfold baseStage
    rw [if_pos h1, h2]
  refine ⟨hb, fun ha hs he hm hM ht => ?_⟩
  rw [hb, ha, hs, he, hm, hM, ht]
  exact filter_trades_all_none db

/-- C1 witness: with search text `"tsla"` (which matches only `trA`) and
`min_price = 60`, the base set is the filter of the whole store — here
`[trA]`, because `trB` fails the price bound, not because of the search. -/
theorem c1_filter_overrides_search_witness :
    baseStage { search := some "tsla", min_price := some 60 } [trA, trB] =
      TradeDB.filter_trades [trA, trB] none none none (some 60) none none ∧
    TradeDB.filter_trades [trA, trB] none none none (some 60) none none = .ok [trA] := by
  refine ⟨?_, by decide⟩
  exact (c1_filter_overrides_search { search := some "tsla", min_price := some 60 }
    [trA, trB] [trA] (by decide) (by decide)).1

/-- Under unique `trade_id`s, the linear scan of `get_trade_by_id` recovers
each stored trade from its own id. -/
theorem get_trade_by_id_self (db : List Trade) (h : (db.map Trade.trade_id).Nodup)
    (t : Trade) (ht : t ∈ db) : TradeDB.get_trade_by_id db t.trade_id = some t := by
  induction db with
  | nil => cases ht
  | cons u ts ih =>
    rw [List.map_cons, List.nodup_cons] at h
    unfold TradeDB.get_trade_by_id
    rcases List.mem_cons.mp ht with rfl | hts
    · rw [List.find?_cons_of_pos _ (by simp)]
    · by_cases hb : u.trade_id = t.trade_id
      · exact absurd (hb ▸ List.mem_map_of_mem Trade.trade_id hts) h.1
      · rw [List.find?_cons_of_neg _ (by simpa using hb)]
        exact ih h.2 hts

/-- C9: with unique `trade_id`s across the store, the lookup is exact:
every stored trade is recovered unchanged from its id; the store-level
lookup yields `None` exactly when no stored trade carries the id; and the
endpoint signals 404 (never a default trade) exactly in that case. -/
theorem c9_get_by_id_correct (db : List Trade) (h : (db.map Trade.trade_id).Nodup) :
    (∀ t ∈ db, TradeDB.get_trade_by_id db t.trade_id = some t) ∧
    (∀ id : Option String,
      (TradeDB.get_trade_by_id db id = none ↔ ∀ t ∈ db, t.trade_id ≠ id)) ∧
    (∀ id : String,
      (get_trade_by_id_route db id = .error 404 ↔ ∀ t ∈ db, t.trade_id ≠ some id)) := by
  refine ⟨fun t ht => get_trade_by_id_self db h t ht, ?_, ?_⟩
  · intro id
    simp [TradeDB.get_trade_by_id, List.find?_eq_none]
  · intro id
    unfold get_trade_by_id_route
    cases hf : TradeDB.get_trade_by_id db (some id) with
    | some t =>
      have hmem : t ∈ db := List.mem_of_find?_eq_some hf
      have hid : t.trade_id = some id := by simpa using List.find?_some hf
      simp only [iff_iff_implies_and_implies]
      constructor
      · intro hc
        exact absurd hc (by intro h2; exact Except.noConfusion h2)
      · intro hall
        exact absurd hid (hall t hmem)
    | none =>
      have : ∀ t ∈ db, t.trade_id ≠ some id := by
        have := (by simpa [TradeDB.get_trade_by_id, List.find?_eq_none] using hf :
          ∀ t ∈ db, ¬(t.trade_id = some id))
        exact this
      exact ⟨fun _ => this, fun _ => rfl⟩

/-- C9 witness: over the two-trade store `[trA, trB]` with distinct ids,
the lookup finds `trB` from its id and 404s on an absent id. -/
theorem c9_get_by_id_correct_witness :
    TradeDB.get_trade_by_id [trA, trB] trB.trade_id = some trB ∧
    get_trade_by_id_route [trA, trB] "zzz" = .error 404 := by
  have h := c9_get_by_id_correct [trA, trB] (by decide)
  exact ⟨h.1 trB (by decide), (h.2.2 "zzz").mpr (by decide)⟩

/-- The pure four-field match predicate of the search, for trades whose
`counterparty` is present (`ql` is the lowercased query). -/
def searchMatchB (ql : String) (t : Trade) : Bool :=
  strIn ql (strLower t.instrument_id) || strIn ql (strLower t.instrument_name) ||
  strIn ql (strLower (t.counterparty.getD "")) || strIn ql (strLower t.trader)

/-- On a store whose counterparties are all present, the search scan is the
pure filter by the four-field predicate. -/
theorem searchGo_eq_filter (ql : String) :
    ∀ l : List Trade, (∀ t ∈ l, t.counterparty ≠ none) →
      TradeDB.searchGo ql l = .ok (l.filter (searchMatchB ql)) := by
  intro l
  induction l with
  | nil => intro _; rfl
  | cons t ts ih =>
    intro h
    have hc := h t (List.mem_cons_self t ts)
    have hm : TradeDB.searchMatch ql t = .ok (searchMatchB ql t) := by
      cases hx : t.counterparty with
      | none => exact absurd hx hc
      | some c =>
        unfold TradeDB.searchMatch searchMatchB
        rw [hx]
        by_cases h1 : strIn ql (strLower t.instrument_id) <;>
          by_cases h2 : strIn ql (strLower t.instrument_name) <;>
            by_cases h3 : strIn ql (strLower c) <;>
              simp [h1, h2, h3]
    unfold TradeDB.searchGo
    rw [hm, ih (fun u hu => h u (List.mem_cons_of_mem t hu))]
    cases hb : searchMatchB ql t <;> simp [List.filter_cons, hb]

/-- C8: when every stored trade has a present counterparty, the search
returns exactly the trades for which the lowercased text is a substring of
one of the four searchable fields (each tested independently), in store
insertion order, each matching trade once — it is the pure filter of the
store by the match predicate. -/
theorem c8_search_exact (db : List Trade) (q : String)
    (h : ∀ t ∈ db, t.counterparty ≠ none) :
    TradeDB.search_trades db q = .ok (db.filter (searchMatchB (strLower q))) := by
  unfold TradeDB.search_trades
  exact searchGo_eq_filter (strLower q) db h

/-- C8 witness: searching `"AM"` over `[trA, trB]` keeps exactly `trB`
(`"am"` is a substring of `"amzn"` and `"amazon"` but of no field of
`trA`). -/
theorem c8_search_exact_witness :
    TradeDB.search_trades [trA, trB] "AM" = .ok (([trA, trB] : List Trade).filter (searchMatchB (strLower "AM"))) ∧
    ([trA, trB] : List Trade).filter (searchMatchB (strLower "AM")) = [trB] := by
  exact ⟨c8_search_exact [trA, trB] "AM" (by decide), by decide⟩

/-- A single search test faults exactly when the counterparty is absent and
neither instrument field matched (the `or`-chain short-circuits before the
`None.lower()` otherwise); the fault is always an `AttributeError`. -/
theorem searchMatch_error_iff (ql : String) (t : Trade) (e : PyError) :
    TradeDB.searchMatch ql t = .error e ↔
      (e = .attributeError ∧ t.counterparty = none ∧
       strIn ql (strLower t.instrument_id) = false ∧
       strIn ql (strLower t.instrument_name) = false) := by
  unfold TradeDB.searchMatch
  by_cases h1 : strIn ql (strLower t.instrument_id)
  · simp [h1]
  · by_cases h2 : strIn ql (strLower t.instrument_name)
    · simp [h1, h2]
    · cases hc : t.counterparty with
      | none =>
        simp only [h1, h2, if_false, Bool.not_eq_true] at *
        simp [h1, h2, hc]
        exact comm
      | some c =>
        by_cases h3 : strIn ql (strLower c) <;> simp [h1, h2, h3, hc]

/-- The search scan faults (necessarily with `AttributeError`) exactly when
some stored trade has an absent counterparty and the text matches neither of
that trade's instrument fields. -/
theorem searchGo_attr_iff (ql : String) :
    ∀ l : List Trade,
      (TradeDB.searchGo ql l = .error .attributeError ↔
        ∃ t ∈ l, t.counterparty = none ∧
          strIn ql (strLower t.instrument_id) = false ∧
          strIn ql (strLower t.instrument_name) = false) := by
  intro l
  induction l with
  | nil => simp [TradeDB.searchGo]
  | cons t ts ih =>
    unfold TradeDB.searchGo
    cases hm : TradeDB.searchMatch ql t with
    | error e =>
      obtain ⟨he, hcn, hi1, hi2⟩ := (searchMatch_error_iff ql t e).mp hm
      subst he
      exact iff_of_true rfl ⟨t, List.mem_cons_self t ts, hcn, hi1, hi2⟩
    | ok m =>
      cases hg : TradeDB.searchGo ql ts with
      | error e' =>
        have he' : e' = .attributeError := searchGo_error_eq ql ts e' hg
        subst he'
        obtain ⟨u, hu, hconds⟩ := ih.mp hg
        exact iff_of_true rfl ⟨u, List.mem_cons_of_mem t hu, hconds⟩
      | ok rest =>
        refine iff_of_false (fun hc => Except.noConfusion hc) ?_
        rintro ⟨u, hu, hcn, hi1, hi2⟩
        rcases List.mem_cons.mp hu with rfl | hu'
        · have hbad : TradeDB.searchMatch ql u = .error .attributeError :=
            (searchMatch_error_iff ql u .attributeError).mpr ⟨rfl, hcn, hi1, hi2⟩
          rw [hbad] at hm
          exact Except.noConfusion hm
        · have hbad : TradeDB.searchGo ql ts = .error .attributeError :=
            ih.mpr ⟨u, hu', hcn, hi1, hi2⟩
          rw [hbad] at hg
          exact Except.noConfusion hg

/-- C10 (amended): the public search is partial, but not for every store
containing an absent counterparty — the `or`-chain short-circuits, so
`search_trades` raises `AttributeError` exactly when some stored trade has
`counterparty = None` and the lowercased text is a substring of neither
that trade's `instrument_id` nor its `instrument_name`; in particular it is
total whenever every stored counterparty is present. -/
theorem c10_search_partial_iff (db : List Trade) (q : String) :
    TradeDB.search_trades db q = .error .attributeError ↔
      ∃ t ∈ db, t.counterparty = none ∧
        strIn (strLower q) (strLower t.instrument_id) = false ∧
        strIn (strLower q) (strLower t.instrument_name) = false := by
  unfold TradeDB.search_trades
  exact searchGo_attr_iff (strLower q) db

/-- C10 counterexample: `trN` has `counterparty = None`, yet searching
`"ab"` over `[trN]` succeeds (the text matches `instrument_id = "ABC"`
before the counterparty is touched), refuting the claim that every store
with an absent counterparty makes every search raise. -/
theorem c10_short_circuit_counterexample :
    trN.counterparty = none ∧ TradeDB.search_trades [trN] "ab" = .ok [trN] := by
  decide

/-- `getField` resolves nothing outside the eight declared field names,
for every trade (a fact about the model; the claims instantiate it only at
names that carry no attribute on the real object either). -/
theorem getField_of_not_known (t : Trade) (n : String)
    (h : knownTradeField n = false) : getField t n = none := by
  unfold knownTradeField at h
  simp only [Bool.or_eq_false_iff, beq_eq_false_iff_ne, ne_eq] at h
  obtain ⟨⟨⟨⟨⟨⟨⟨h1, h2⟩, h3⟩, h4⟩, h5⟩, h6⟩, h7⟩, h8⟩ := h
  unfold getField
  rw [if_neg h1, if_neg h2, if_neg h3, if_neg h4, if_neg h5, if_neg h6,
    if_neg h8, if_neg h7]

/-- Sorting a non-empty list by a field `getField` does not resolve faults
in the decorate phase with an `AttributeError` (faithful to the program
when the stripped name carries no attribute on the real object, the only
way the claims use it). -/
theorem sortKeyStep_unknown (f : String) (t : Trade) (l : List Trade)
    (h : knownTradeField (stripDashes f) = false) :
    sortKeyStep f (t :: l) = .error .attributeError := by
  unfold sortKeyStep getKeys
  rw [getField_of_not_known t _ h]

/-- When the first sort key is a name `getField` does not resolve and the
sequence reaching the sort is non-empty, the whole query faults with
`AttributeError`; the claims instantiate this only at names that resolve
to no attribute on the real object (`"price"`, `"nonexistent_field"`). -/
theorem list_trades_unknown_sort_first (req : ListTradesRequest) (db : List Trade)
    (f : String) (fs : List String) (l0 : List Trade)
    (hsb : req.sort_by = f :: fs) (hk : knownTradeField (stripDashes f) = false)
    (hb : baseStage req db = .ok l0) (hne : traderStage req l0 ≠ []) :
    list_trades req db = .error .attributeError := by
  obtain ⟨t, l', hl⟩ : ∃ t l', traderStage req l0 = t :: l' := by
    cases hx : traderStage req l0 with
    | nil => exact absurd hx hne
    | cons t l' => exact ⟨t, l', rfl⟩
  unfold list_trades
  rw [hb]
  dsimp only
  rw [hsb, hl]
  unfold sortStage
  rw [sortKeyStep_unknown f t l' hk]

/-- C2 (amended): no `list_trades` request is ever rejected with a
`ValidationError` — in particular an unrecognized `sort_by` name is not —
and a sort key that resolves to no attribute at all, here
`"nonexistent_field"`, is not silently skipped either: whenever the
sequence reaching the sort is non-empty the query faults with a runtime
`AttributeError` (dynamic `getattr`).  An undeclared name that happens to
resolve to a `BaseModel` class attribute, such as `"dict"`, sorts those
objects or raises `TypeError` and is outside this statement; it never
yields a `ValidationError` either.  The handler only reads the store. -/
theorem c2_unknown_sort_field_faults (req : ListTradesRequest) (db : List Trade)
    (fs : List String) (l0 : List Trade)
    (hsb : req.sort_by = "nonexistent_field" :: fs)
    (hb : baseStage req db = .ok l0) (hne : traderStage req l0 ≠ []) :
    list_trades req db = .error .attributeError ∧
    list_trades req db ≠ .error .validationError := by
  refine ⟨list_trades_unknown_sort_first req db "nonexistent_field" fs l0 hsb (by decide) hb hne,
    list_trades_ne_validationError req db⟩

/-- C2 counterexample: `sort_by = ["nonexistent_field"]` over a one-trade
store faults with `AttributeError` — a server-side attribute-missing fault,
not the `ValidationError` rejection the claim promises. -/
theorem c2_unknown_sort_field_counterexample :
    list_trades { sort_by := ["nonexistent_field"] } [trB] = .error .attributeError ∧
    list_trades { sort_by := ["nonexistent_field"] } [trB] ≠ .error .validationError := by
  have h1 : list_trades { sort_by := ["nonexistent_field"] } [trB] = .error .attributeError := by
    decide
  refine ⟨h1, ?_⟩
  rw [h1]
  intro hc
  injection hc with h2
  exact PyError.noConfusion h2

/-- C2 witness: the amended theorem applied to
`sort_by = ["nonexistent_field", "trader"]` over the one-trade store
`[trA]` (the fault hits at the first key, before `"trader"` is reached). -/
theorem c2_unknown_sort_field_witness :
    list_trades { sort_by := ["nonexistent_field", "trader"] } [trA] = .error .attributeError ∧
    list_trades { sort_by := ["nonexistent_field", "trader"] } [trA] ≠ .error .validationError :=
  c2_unknown_sort_field_faults { sort_by := ["nonexistent_field", "trader"] } [trA]
    ["trader"] [trA] (by decide) (by decide) (by decide)

/-- C6 (amended): `sort_by = ["-price"]` cannot return a price-ordered
sequence, because `price` is not a `Trade` attribute (it lives inside
`trade_details`): whenever the sequence reaching the sort is non-empty the
query faults with `AttributeError`. -/
theorem c6_sort_by_price_faults (req : ListTradesRequest) (db : List Trade)
    (l0 : List Trade) (hsb : req.sort_by = ["-price"])
    (hb : baseStage req db = .ok l0) (hne : traderStage req l0 ≠ []) :
    list_trades req db = .error .attributeError :=
  list_trades_unknown_sort_first req db "-price" [] l0 hsb (by decide) hb hne

/-- C6 counterexample: `sort_by = ["-price"]` over a one-trade store faults
with `AttributeError` instead of returning the trades in non-increasing
price order. -/
theorem c6_sort_by_price_counterexample :
    list_trades { sort_by := ["-price"] } [trA] = .error .attributeError := by
  decide

/-- C6 witness: the amended theorem applied over the one-trade store
`[trB]`. -/
theorem c6_sort_by_price_faults_witness :
    list_trades { sort_by := ["-price"] } [trB] = .error .attributeError :=
  c6_sort_by_price_faults { sort_by := ["-price"] } [trB] [trB]
    (by decide) (by decide) (by decide)

/-- Membership in a stable insertion. -/
theorem mem_pyInsert {α : Type} (le : α → α → Bool) (x a : α) (l : List α) :
    a ∈ pyInsert le x l ↔ a = x ∨ a ∈ l := by
  induction l with
  | nil => simp [pyInsert]
  | cons y ys ih =>
    unfold pyInsert
    by_cases h : le x y
    · simp [h]
    · simp [h, ih]
      tauto

/-- Stable insertion permutes the cons. -/
theorem pyInsert_perm {α : Type} (le : α → α → Bool) (x : α) (l : List α) :
    (pyInsert le x l).Perm (x :: l) := by
  induction l with
  | nil => exact List.Perm.refl _
  | cons y ys ih =>
    unfold pyInsert
    by_cases h : le x y
    · rw [if_pos h]
    · rw [if_neg h]
      exact (ih.cons y).trans (List.Perm.swap x y ys)

/-- The stable sort permutes its input. -/
theorem pySort_perm {α : Type} (le : α → α → Bool) (l : List α) :
    (pySort le l).Perm l := by
  induction l with
  | nil => exact List.Perm.refl _
  | cons x xs ih =>
    exact (pyInsert_perm le x (pySort le xs)).trans (ih.cons x)

/-- Inserting into a sorted list keeps it sorted, given totality of the
comparison against the inserted element and enough transitivity among the
elements involved. -/
theorem pairwise_pyInsert {α : Type} (le : α → α → Bool) (x : α) (l : List α)
    (hl : l.Pairwise (fun a b => le a b = true))
    (htot : ∀ b ∈ l, le x b = true ∨ le b x = true)
    (htr : ∀ y ∈ l, ∀ b ∈ l, le x y = true → le y b = true → le x b = true) :
    (pyInsert le x l).Pairwise (fun a b => le a b = true) := by
  induction l with
  | nil => simp [pyInsert]
  | cons y ys ih =>
    rw [List.pairwise_cons] at hl
    unfold pyInsert
    by_cases h : le x y = true
    · rw [if_pos h]
      refine List.Pairwise.cons ?_ (List.Pairwise.cons hl.1 hl.2)
      intro b hb
      rcases List.mem_cons.mp hb with rfl | hbys
      · exact h
      · exact htr y (List.mem_cons_self y ys) b (List.mem_cons_of_mem y hbys) h (hl.1 b hbys)
    · rw [if_neg h]
      refine List.Pairwise.cons ?_ (ih hl.2 ?_ ?_)
      · intro b hb
        rcases (mem_pyInsert le x b ys).mp hb with rfl | hbys
        · rcases htot y (List.mem_cons_self y ys) with h' | h'
          · exact absurd h' h
          · exact h'
        · exact hl.1 b hbys
      · intro b hb
        exact htot b (List.mem_cons_of_mem y hb)
      · intro a ha b hb
        exact htr a (List.mem_cons_of_mem y ha) b (List.mem_cons_of_mem y hb)

/-- The stable sort produces a pairwise-ordered list, given totality and
transitivity of the comparison among the input's elements. -/
theorem pairwise_pySort {α : Type} (le : α → α → Bool) (l : List α)
    (htot : ∀ a ∈ l, ∀ b ∈ l, le a b = true ∨ le b a = true)
    (htr : ∀ a ∈ l, ∀ b ∈ l, ∀ c ∈ l, le a b = true → le b c = true → le a c = true) :
    (pySort le l).Pairwise (fun a b => le a b = true) := by
  induction l with
  | nil => simp [pySort]
  | cons x xs ih =>
    unfold pySort
    have hmem : ∀ b ∈ pySort le xs, b ∈ xs := fun b hb => (pySort_perm le xs).mem_iff.mp hb
    refine pairwise_pyInsert le x (pySort le xs)
      (ih ?_ ?_) ?_ ?_
    · intro a ha b hb
      exact htot a (List.mem_cons_of_mem x ha) b (List.mem_cons_of_mem x hb)
    · intro a ha b hb c hc
      exact htr a (List.mem_cons_of_mem x ha) b (List.mem_cons_of_mem x hb)
        c (List.mem_cons_of_mem x hc)
    · intro b hb
      exact htot x (List.mem_cons_self x xs) b (List.mem_cons_of_mem x (hmem b hb))
    · intro y hy b hb
      exact htr x (List.mem_cons_self x xs) y (List.mem_cons_of_mem x (hmem y hy))
        b (List.mem_cons_of_mem x (hmem b hb))

/-- Stability, insertion step, kept element: an inserted element satisfying
`p` that precedes (in the order) every `p`-element lands in front of all of
them, so the `p`-filter gains exactly a head. -/
theorem filter_pyInsert_pos {α : Type} (le : α → α → Bool) (p : α → Bool) (x : α)
    (l : List α) (hx : p x = true) (hle : ∀ b ∈ l, p b = true → le x b = true) :
    (pyInsert le x l).filter p = x :: l.filter p := by
  induction l with
  | nil => simp [pyInsert, hx]
  | cons y ys ih =>
    unfold pyInsert
    by_cases h : le x y = true
    · rw [if_pos h]
      simp [List.filter_cons, hx]
    · rw [if_neg h]
      have hpy : p y = false := by
        cases hpy : p y
        · rfl
        · exact absurd (hle y (List.mem_cons_self y ys) hpy) h
      have ih' := ih (fun b hb hpb => hle b (List.mem_cons_of_mem y hb) hpb)
      simp [List.filter_cons, hpy, ih']

/-- Stability, insertion step, dropped element. -/
theorem filter_pyInsert_neg {α : Type} (le : α → α → Bool) (p : α → Bool) (x : α)
    (l : List α) (hx : p x = false) :
    (pyInsert le x l).filter p = l.filter p := by
  induction l with
  | nil => simp [pyInsert, hx]
  | cons y ys ih =>
    unfold pyInsert
    by_cases h : le x y = true
    · rw [if_pos h]
      simp [List.filter_cons, hx]
    · rw [if_neg h]
      simp [List.filter_cons, ih]

/-- Stability of the sort: a class of mutually tied elements (each pair
related by `le`) keeps its input order — its filter is unchanged by the
sort. -/
theorem filter_pySort {α : Type} (le : α → α → Bool) (p : α → Bool) (l : List α)
    (hp : ∀ a ∈ l, ∀ b ∈ l, p a = true → p b = true → le a b = true) :
    (pySort le l).filter p = l.filter p := by
  induction l with
  | nil => rfl
  | cons x xs ih =>
    unfold pySort
    have hmem : ∀ b ∈ pySort le xs, b ∈ xs := fun b hb => (pySort_perm le xs).mem_iff.mp hb
    have ih' := ih (fun a ha b hb => hp a (List.mem_cons_of_mem x ha) b (List.mem_cons_of_mem x hb))
    cases hpx : p x with
    | false =>
      rw [filter_pyInsert_neg le p x _ hpx, ih']
      simp [List.filter_cons, hpx]
    | true =>
      rw [filter_pyInsert_pos le p x _ hpx
        (fun b hb hpb => hp x (List.mem_cons_self x xs) b (List.mem_cons_of_mem x (hmem b hb)) hpx hpb), ih']
      simp [List.filter_cons, hpx]

/-- Code-point comparison is reflexive. -/
theorem charsLe_refl : ∀ a : List Char, charsLe a a = true := by
  intro a
  induction a with
  | nil => rfl
  | cons x xs ih =>
    unfold charsLe
    rw [if_neg (Nat.lt_irrefl x.toNat), if_neg (Nat.lt_irrefl x.toNat)]
    exact ih

/-- Code-point comparison is total. -/
theorem charsLe_total : ∀ a b : List Char, charsLe a b = true ∨ charsLe b a = true := by
  intro a
  induction a with
  | nil =>
    intro b
    left
    rfl
  | cons x xs ih =>
    intro b
    cases b with
    | nil =>
      right
      rfl
    | cons y ys =>
      unfold charsLe
      rcases Nat.lt_trichotomy x.toNat y.toNat with h | h | h
      · left
        rw [if_pos h]
      · rw [if_neg (by omega), if_neg (by omega), if_neg (by omega), if_neg (by omega)]
        exact ih ys
      · right
        rw [if_pos h]

/-- A first-character bound extracted from a successful comparison. -/
theorem charsLe_head_le (x y : Char) (xs ys : List Char)
    (h : charsLe (x :: xs) (y :: ys) = true) : x.toNat ≤ y.toNat := by
  unfold charsLe at h
  by_cases h1 : x.toNat < y.toNat
  · omega
  · by_cases h2 : y.toNat < x.toNat
    · rw [if_neg h1, if_pos h2] at h
      exact absurd h (by simp)
    · omega

/-- Code-point comparison is transitive. -/
theorem charsLe_trans : ∀ a b c : List Char,
    charsLe a b = true → charsLe b c = true → charsLe a c = true := by
  intro a
  induction a with
  | nil =>
    intro b c _ _
    rfl
  | cons x xs ih =>
    intro b c h1 h2
    cases b with
    | nil => exact absurd h1 (by simp [charsLe])
    | cons y ys =>
      cases c with
      | nil => exact absurd h2 (by simp [charsLe])
      | cons z zs =>
        have hxy := charsLe_head_le x y xs ys h1
        have hyz := charsLe_head_le y z ys zs h2
        unfold charsLe
        by_cases hxz : x.toNat < z.toNat
        · rw [if_pos hxz]
        · have hxez : x.toNat = z.toNat := by omega
          have hxey : x.toNat = y.toNat := by omega
          rw [if_neg hxz, if_neg (by omega)]
          unfold charsLe at h1 h2
          rw [if_neg (by omega), if_neg (by omega)] at h1
          rw [if_neg (by omega), if_neg (by omega)] at h2
          exact ih ys zs h1 h2

/-- Order-comparability of key values is symmetric. -/
theorem comparableSV_symm (a b : SortVal) : comparableSV a b = comparableSV b a := by
  cases a <;> cases b <;> rfl

/-- Order-comparability of key values is transitive. -/
theorem comparableSV_trans (a b c : SortVal) (h1 : comparableSV a b = true)
    (h2 : comparableSV b c = true) : comparableSV a c = true := by
  cases a <;> cases b <;> cases c <;> simp_all [comparableSV]

/-- `svLeB` is reflexive on self-comparable values. -/
theorem svLeB_refl (a : SortVal) (h : comparableSV a a = true) : svLeB a a = true := by
  cases a with
  | vstr s => exact charsLe_refl s.data
  | vint n => simp [svLeB]
  | vnone => exact absurd h (by simp [comparableSV])
  | vdetails d => exact absurd h (by simp [comparableSV])

/-- `svLeB` is total on comparable pairs. -/
theorem svLeB_total (a b : SortVal) (h : comparableSV a b = true) :
    svLeB a b = true ∨ svLeB b a = true := by
  cases a <;> cases b <;> simp_all [comparableSV, svLeB]
  · exact charsLe_total _ _
  · omega

/-- `svLeB` is transitive along comparable pairs. -/
theorem svLeB_trans (a b c : SortVal) (hab : comparableSV a b = true)
    (hbc : comparableSV b c = true) (h1 : svLeB a b = true) (h2 : svLeB b c = true) :
    svLeB a c = true := by
  cases a <;> cases b <;> cases c <;> simp_all [comparableSV, svLeB]
  · exact charsLe_trans _ _ _ h1 h2
  · omega

/-- When a comparability check over at least two keys passes, every pair of
keys (including each key with itself) is order-comparable. -/
theorem allComparable_pairwise (v0 : SortVal) (vs : List SortVal)
    (h : allComparable (v0 :: vs) = true) (hne : vs ≠ []) :
    ∀ a ∈ v0 :: vs, ∀ b ∈ v0 :: vs, comparableSV a b = true := by
  unfold allComparable at h
  rw [List.all_eq_true] at h
  have h00 : comparableSV v0 v0 = true := by
    obtain ⟨w, hw⟩ := List.exists_mem_of_ne_nil vs hne
    exact comparableSV_trans v0 w v0 (h w hw) (by rw [comparableSV_symm]; exact h w hw)
  intro a ha b hb
  rcases List.mem_cons.mp ha with rfl | ha' <;> rcases List.mem_cons.mp hb with rfl | hb'
  · exact h00
  · exact h b hb'
  · rw [comparableSV_symm]
    exact h a ha'
  · exact comparableSV_trans a v0 b (by rw [comparableSV_symm]; exact h a ha') (h b hb')

/-- A successful decorate phase computes exactly the per-trade keys and
certifies that the field resolves on every trade. -/
theorem getKeys_ok (sf : String) : ∀ (l : List Trade) (keys : List SortVal),
    getKeys sf l = .ok keys →
    keys = l.map (keyD sf) ∧ ∀ t ∈ l, getField t sf ≠ none := by
  intro l
  induction l with
  | nil =>
    intro keys h
    injection h with h'
    subst h'
    exact ⟨rfl, by simp⟩
  | cons t ts ih =>
    intro keys h
    unfold getKeys at h
    cases hf : getField t sf with
    | none =>
      rw [hf] at h
      exact Except.noConfusion h
    | some v =>
      rw [hf] at h
      cases hg : getKeys sf ts with
      | error e =>
        rw [hg] at h
        exact Except.noConfusion h
      | ok vs =>
        rw [hg] at h
        injection h with h'
        subst h'
        obtain ⟨hvs, hall⟩ := ih vs hg
        constructor
        · rw [List.map_cons, ← hvs]
          have : keyD sf t = v := by
            unfold keyD
            rw [hf]
            rfl
          rw [this]
        · intro u hu
          rcases List.mem_cons.mp hu with rfl | hu'
          · rw [hf]
            simp
          · exact hall u hu'

/-- A successful sort step is exactly the stable sort by the key comparison,
and certifies the comparability of the computed keys. -/
theorem sortKeyStep_ok (f : String) (l r : List Trade)
    (h : sortKeyStep f l = .ok r) :
    r = pySort (keyCmpB f) l ∧ allComparable (l.map (keyD (stripDashes f))) = true := by
  unfold sortKeyStep at h
  cases hg : getKeys (stripDashes f) l with
  | error e =>
    rw [hg] at h
    exact Except.noConfusion h
  | ok keys =>
    rw [hg] at h
    dsimp only at h
    obtain ⟨hkeys, _⟩ := getKeys_ok (stripDashes f) l keys hg
    by_cases hc : allComparable keys = true
    · rw [if_pos hc] at h
      injection h with h'
      exact ⟨h'.symm, hkeys ▸ hc⟩
    · rw [if_neg hc] at h
      exact Except.noConfusion h

/-- The sort loop over `ks ++ [k]` is the loop over `ks` followed by the
single step for `k`. -/
theorem sortStage_append_single : ∀ (ks : List String) (k : String) (l r : List Trade),
    sortStage (ks ++ [k]) l = .ok r →
    ∃ mid, sortStage ks l = .ok mid ∧ sortKeyStep k mid = .ok r := by
  intro ks
  induction ks with
  | nil =>
    intro k l r h
    refine ⟨l, rfl, ?_⟩
    rw [List.nil_append] at h
    unfold sortStage at h
    cases hs : sortKeyStep k l with
    | error e =>
      rw [hs] at h
      exact Except.noConfusion h
    | ok l2 =>
      rw [hs] at h
      dsimp only at h
      unfold sortStage at h
      injection h with h'
      rw [← h']
  | cons f fs ih =>
    intro k l r h
    rw [List.cons_append] at h
    unfold sortStage at h
    cases hs : sortKeyStep f l with
    | error e =>
      rw [hs] at h
      exact Except.noConfusion h
    | ok l2 =>
      rw [hs] at h
      obtain ⟨mid, h1, h2⟩ := ih k l2 r h
      refine ⟨mid, ?_, h2⟩
      unfold sortStage
      rw [hs]
      exact h1

/-- C5: for a multi-key `sort_by = ks ++ [k]`, sorting is the sequence of
stable sorts over the keys in list order, each consuming the previous
stage's output; consequently the final output is a permutation of the
last-but-one stage's output that is pairwise ordered by the LAST key's
comparison (the last key is the final primary order), while within each
class of trades the last key ties (equal key value) the order is exactly
the earlier stages' order (stability). -/
theorem c5_sequential_stable_sort (ks : List String) (k : String) (l r : List Trade)
    (h : sortStage (ks ++ [k]) l = .ok r) :
    ∃ mid, sortStage ks l = .ok mid ∧ sortKeyStep k mid = .ok r ∧
      r.Perm mid ∧
      r.Pairwise (fun a b => keyCmpB k a b = true) ∧
      (∀ v : SortVal, r.filter (fun t => keyD (stripDashes k) t == v) =
        mid.filter (fun t => keyD (stripDashes k) t == v)) := by
  obtain ⟨mid, h1, h2⟩ := sortStage_append_single ks k l r h
  obtain ⟨hr, hcomp⟩ := sortKeyStep_ok k mid r h2
  subst hr
  refine ⟨mid, h1, h2, pySort_perm _ _, ?_⟩
  cases mid with
  | nil => exact ⟨by simp [pySort], fun v => rfl⟩
  | cons t0 ts =>
    cases ts with
    | nil => exact ⟨by simp [pySort, pyInsert], fun v => rfl⟩
    | cons t1 ts' =>
      have hmapc : allComparable (keyD (stripDashes k) t0 ::
          (t1 :: ts').map (keyD (stripDashes k))) = true := by
        simpa using hcomp
      have hpair := allComparable_pairwise (keyD (stripDashes k) t0)
        ((t1 :: ts').map (keyD (stripDashes k))) hmapc (by simp)
      have hkey : ∀ a ∈ t0 :: t1 :: ts', ∀ b ∈ t0 :: t1 :: ts',
          comparableSV (keyD (stripDashes k) a) (keyD (stripDashes k) b) = true := by
        intro a ha b hb
        refine hpair _ ?_ _ ?_
        · simpa using List.mem_map_of_mem (keyD (stripDashes k)) ha
        · simpa using List.mem_map_of_mem (keyD (stripDashes k)) hb
      constructor
      · apply pairwise_pySort
        · intro a ha b hb
          by_cases hdash : startsDash k = true
          · simp only [keyCmpB, if_pos hdash]
            exact svLeB_total _ _ (hkey b hb a ha)
          · simp only [keyCmpB, if_neg hdash]
            exact svLeB_total _ _ (hkey a ha b hb)
        · intro a ha b hb c hc hab hbc
          by_cases hdash : startsDash k = true
          · simp only [keyCmpB, if_pos hdash] at hab hbc ⊢
            exact svLeB_trans _ _ _ (hkey c hc b hb) (hkey b hb a ha) hbc hab
          · simp only [keyCmpB, if_neg hdash] at hab hbc ⊢
            exact svLeB_trans _ _ _ (hkey a ha b hb) (hkey b hb c hc) hab hbc
      · intro v
        apply filter_pySort
        intro a ha b hb hpa hpb
        have hva : keyD (stripDashes k) a = v := by simpa using hpa
        have hvb : keyD (stripDashes k) b = v := by simpa using hpb
        have hcc : comparableSV v v = true := by
          have := hkey a ha a ha
          rwa [hva] at this
        by_cases hdash : startsDash k = true
        · simp only [keyCmpB, if_pos hdash, hva, hvb]
          exact svLeB_refl v hcc
        · simp only [keyCmpB, if_neg hdash, hva, hvb]
          exact svLeB_refl v hcc

/-- C5 witness: sorting `[trB, trA]` by `instrument_id` then
`trade_date_time` — the final order `[trA, trB]` is the date order, the
last key. -/
theorem c5_sequential_stable_sort_witness :
    ∃ mid, sortStage ["instrument_id"] [trB, trA] = .ok mid ∧
      sortKeyStep "trade_date_time" mid = .ok [trA, trB] ∧
      ([trA, trB] : List Trade).Perm mid ∧
      ([trA, trB] : List Trade).Pairwise (fun a b => keyCmpB "trade_date_time" a b = true) ∧
      (∀ v : SortVal,
        ([trA, trB] : List Trade).filter (fun t => keyD (stripDashes "trade_date_time") t == v) =
        mid.filter (fun t => keyD (stripDashes "trade_date_time") t == v)) :=
  c5_sequential_stable_sort ["instrument_id"] "trade_date_time" [trB, trA] [trA, trB]
    (by decide)
